import Mathlib

/-!
Verification of the qCore assembler backend: a shallow embedding of the
two-pass assembler (address-layout pass, table-driven instruction encoder,
disassembler used by the memory-image writer, and the MIF writer itself),
together with theorems settling the specification claims.

The embedding follows the C++ sources:
  InstructionDef.h      - instruction / register / directive tables, disassembly
  InstructionEncoder.h  - encoder interface
  InstructionEncoder.cpp- encoder implementation (Pass 2 helpers)
  ast.h                 - statement data model
  main.cpp              - Pass 1 (symbol collection / layout) and writeMIF

Machine words are modelled as Nat (always < 2^16 where emitted); 64-bit
signed values (int64_t) as Int; fallible code returns Except AsmError.
-/

namespace QCore

deriving instance DecidableEq for Except

/-- Instruction format types (InstrFormat in InstructionDef.h):
determines how operands are parsed and encoded. -/
inductive InstrFormat where
  | REG_REG
  | REG_IMM
  | REG_IMM_OR_REG
  | BRANCH
  | REG_ONLY
  | REG_MEM
  | SHIFT
  | LABEL_LOAD
  | NO_OPERAND
deriving DecidableEq, Inhabited

/-- Instruction definition entry (struct InstructionDef).  uint16_t opcodes
and the uint8_t extraData are modelled as Nat; immBits (int, always 0..9
in the table) as Nat. -/
structure InstructionDef where
  mnemonic : String
  fmt : InstrFormat
  opcodeReg : Nat
  opcodeImm : Nat
  immBits : Nat
  extraData : Nat
  baseSize : Nat
  canExpand : Bool
  description : String
deriving DecidableEq, Inhabited

/-- The INSTRUCTIONS table from getInstructionTable() in InstructionDef.h. -/
def getInstructionTable : List InstructionDef := [
  ⟨"mv",   .REG_IMM_OR_REG, 0x0000, 0x1000, 9, 0, 1, true,  "Move register or immediate to register"⟩,
  ⟨"mvt",  .REG_IMM,        0x3000, 0x3000, 8, 0, 1, false, "Move to top byte of register"⟩,
  ⟨"add",  .REG_IMM_OR_REG, 0x4000, 0x5000, 9, 0, 1, true,  "Add register or immediate"⟩,
  ⟨"sub",  .REG_IMM_OR_REG, 0x6000, 0x7000, 9, 0, 1, true,  "Subtract register or immediate"⟩,
  ⟨"and",  .REG_IMM_OR_REG, 0xC000, 0xD000, 9, 0, 1, true,  "Bitwise AND register or immediate"⟩,
  ⟨"cmp",  .REG_IMM_OR_REG, 0xE000, 0xF000, 9, 0, 1, false, "Compare register with register or immediate"⟩,
  ⟨"ld",   .REG_MEM,        0x8000, 0x8000, 0, 0, 1, false, "Load from memory"⟩,
  ⟨"st",   .REG_MEM,        0xA000, 0xA000, 0, 0, 1, false, "Store to memory"⟩,
  ⟨"push", .REG_ONLY,       0xB000, 0xB000, 0, 0x05, 1, false, "Push register to stack"⟩,
  ⟨"pop",  .REG_ONLY,       0x9000, 0x9000, 0, 0x05, 1, false, "Pop from stack to register"⟩,
  ⟨"lsl",  .SHIFT,          0xE000, 0xE000, 4, 0, 1, false, "Logical shift left"⟩,
  ⟨"lsr",  .SHIFT,          0xE000, 0xE000, 4, 1, 1, false, "Logical shift right"⟩,
  ⟨"asr",  .SHIFT,          0xE000, 0xE000, 4, 2, 1, false, "Arithmetic shift right"⟩,
  ⟨"ror",  .SHIFT,          0xE000, 0xE000, 4, 3, 1, false, "Rotate right"⟩,
  ⟨"b",    .BRANCH,         0x2000, 0x2000, 9, 0, 1, false, "Unconditional branch"⟩,
  ⟨"beq",  .BRANCH,         0x2000, 0x2000, 9, 1, 1, false, "Branch if equal (Z=1)"⟩,
  ⟨"bne",  .BRANCH,         0x2000, 0x2000, 9, 2, 1, false, "Branch if not equal (Z=0)"⟩,
  ⟨"bcc",  .BRANCH,         0x2000, 0x2000, 9, 3, 1, false, "Branch if carry clear (C=0)"⟩,
  ⟨"bcs",  .BRANCH,         0x2000, 0x2000, 9, 4, 1, false, "Branch if carry set (C=1)"⟩,
  ⟨"bpl",  .BRANCH,         0x2000, 0x2000, 9, 5, 1, false, "Branch if positive (N=0)"⟩,
  ⟨"bmi",  .BRANCH,         0x2000, 0x2000, 9, 6, 1, false, "Branch if negative (N=1)"⟩,
  ⟨"bl",   .BRANCH,         0x2000, 0x2000, 9, 7, 1, false, "Branch and link (call)"⟩,
  ⟨"halt", .NO_OPERAND,     0xE1F0, 0xE1F0, 0, 0, 1, false, "Halt processor execution"⟩]

/-- getInstructionDef: mnemonic lookup (the unordered_map built from the
table; mnemonics are unique, so find? over the table is equivalent). -/
def getInstructionDef (m : String) : Option InstructionDef :=
  getInstructionTable.find? (fun d => d.mnemonic == m)

/-- Total variant of getInstructionDef used to state theorems about
specific table rows (the row returned for a mnemonic that is present). -/
def instrDefNamed (m : String) : InstructionDef :=
  (getInstructionDef m).getD default

/-- The REGISTERS table from getRegisterTable(), reduced to the
name-to-number map built by getRegisterMap(). -/
def registerTable : List (String × Nat) := [
  ("r0", 0), ("r1", 1), ("r2", 2), ("r3", 3), ("r4", 4),
  ("r5", 5), ("r6", 6), ("r7", 7), ("sp", 5), ("lr", 6), ("pc", 7)]

/-- The DIRECTIVES table from getDirectiveTable() (name, description). -/
def getDirectiveTable : List (String × String) := [
  (".word",   "Emit a 16-bit word value"),
  (".define", "Define a symbolic constant"),
  (".org",    "Set the current assembly address (origin)"),
  (".space",  "Reserve N words of zero-initialized memory"),
  (".ascii",  "Emit a string as words (one char per word, no null terminator)"),
  (".asciiz", "Emit a null-terminated string (one char per word)")]

/-- Structured assembler errors.  The C++ code throws std::runtime_error
with formatted messages; each constructor carries the data interpolated
into the corresponding message. -/
inductive AsmError where
  /-- "Invalid register name: " + reg (Encoder::parseRegister) -/
  | invalidRegister (reg : String)
  /-- "Immediate value v out of range [min, max] for context"
  (Encoder::encodeImmediate) -/
  | immediateOutOfRange (value minVal maxVal : Int) (context : String)
  /-- "Immediate value with # must fit in n bits, got: v. ..."
  (Encoder::encodeRegImmOrReg) -/
  | hashImmediateTooWide (bits : Nat) (value : Int)
  /-- "Branch target too far (offset d words)" (Encoder::encodeBranch) -/
  | branchTooFar (offset : Int)
  /-- "Shift amount must be between 0 and 15" (Encoder::encodeShift) -/
  | shiftAmountOutOfRange
  /-- "Unknown instruction: " + opcode (Encoder::encodeInstruction) -/
  | unknownInstruction (opcode : String)
  /-- "Failed to parse immediate value 'v' for context: ..." -/
  | parseFailed (value context : String)
  /-- Undefined label in SymbolTable lookup -/
  | undefinedLabel (name : String)
  /-- ".org address T is less than current address A" with the line
  (main.cpp Pass 1) -/
  | orgRegression (line : Int) (target current : Int)
  /-- ".word value out of range [-32768, 65535]" (Encoder::encodeDirective) -/
  | wordOutOfRange (value : Int)
  /-- "Unhandled instruction format for: " + opcode (the default case of
  Encoder::encodeInstruction dispatch) -/
  | unhandledFormat (opcode : String)
  /-- Pass-1 parseNumber (std::stoll) failure for a directive value -/
  | badNumber (text : String)
  /-- re-thrown with "\n  Expected format: ..." (getFormatHint) appended -/
  | withHint (e : AsmError) (hint : String)
  /-- "Error at line N: " wrapper (Encoder::encodeInstruction) -/
  | errLine (line : Int) (e : AsmError)
  /-- "Error encoding directive at line N: " wrapper
  (Encoder::encodeDirective) -/
  | errDirLine (line : Int) (e : AsmError)
deriving DecidableEq

/-- Modelled from the spec: the SymbolTable (SymbolTable.h is not among
the provided sources; only its use sites are).  Per spec section 4.2 it
maps label names to addresses and define names to signed 64-bit values,
each set once during Pass 1 and read afterwards.  Modelled as association
lists; addLabel/addDefine cons and lookup takes the first match, so the
most recent registration wins (the spec leaves the duplicate-name policy
to the implementer). -/
structure SymbolTable where
  labels : List (String × Int)
  defines : List (String × Int)
deriving DecidableEq

def SymbolTable.empty : SymbolTable := ⟨[], []⟩

def SymbolTable.addLabel (st : SymbolTable) (n : String) (a : Int) : SymbolTable :=
  ⟨(n, a) :: st.labels, st.defines⟩

def SymbolTable.addDefine (st : SymbolTable) (n : String) (v : Int) : SymbolTable :=
  ⟨st.labels, (n, v) :: st.defines⟩

def SymbolTable.hasLabel (st : SymbolTable) (n : String) : Bool :=
  (st.labels.lookup n).isSome

def SymbolTable.hasDefine (st : SymbolTable) (n : String) : Bool :=
  (st.defines.lookup n).isSome

/-- Label address lookup; fails with an undefined-symbol condition when
the name was never registered (spec section 4.2). -/
def SymbolTable.getLabelAddress (st : SymbolTable) (n : String) : Except AsmError Int :=
  match st.labels.lookup n with
  | some a => .ok a
  | none => .error (.undefinedLabel n)

def SymbolTable.getDefineValue (st : SymbolTable) (n : String) : Int :=
  (st.defines.lookup n).getD 0

/-- Instruction statement payload (class Instruction in ast.h). -/
structure Instr where
  opcode : String
  operand1 : String
  operand2 : String
  hasComma : Bool
  isLabelImmediate : Bool
  isImmediate : Bool
  line : Int
deriving DecidableEq

/-- Statement (ast.h): label, directive or instruction node. -/
inductive Stmt where
  | label (name : String) (line : Int)
  | directive (name lbl value : String) (line : Int)
  | instruction (i : Instr)
deriving DecidableEq

/-! ### Numeric literal parsing (std::stoll semantics as used by the code) -/

/-- Value of one digit character in the given base (strtoll digit set:
0-9, a-z, A-Z restricted to the base). Bases used are 2, 8, 10, 16. -/
def digitVal (base : Nat) (c : Char) : Option Nat :=
  let v : Option Nat :=
    if '0' ≤ c ∧ c ≤ '9' then some (c.toNat - 48)
    else if 'a' ≤ c ∧ c ≤ 'f' then some (c.toNat - 87)
    else if 'A' ≤ c ∧ c ≤ 'F' then some (c.toNat - 55)
    else none
  match v with
  | some d => if d < base then some d else none
  | none => none

/-- Accumulate the longest prefix of valid digits (strtoll stops at the
first character that is not a digit of the base). -/
def parseDigitsAcc (base : Nat) : List Char → Nat → Nat
  | [], acc => acc
  | c :: rest, acc =>
    match digitVal base c with
    | some d => parseDigitsAcc base rest (acc * base + d)
    | none => acc

/-- Magnitude part of strtoll for a fixed base: at least one valid digit
is required, then the longest digit prefix is converted. -/
def stollMag (base : Nat) (cs : List Char) : Option Nat :=
  match cs with
  | [] => none
  | c :: _ =>
    match digitVal base c with
    | some _ => some (parseDigitsAcc base cs 0)
    | none => none

/-- Magnitude part of strtoll with base 0 (auto-detection): "0x"/"0X"
prefix means hexadecimal, a leading '0' means octal (the plain "0" is the
octal number 0), anything else decimal. -/
def stollMagBase0 (cs : List Char) : Option Nat :=
  match cs with
  | '0' :: 'x' :: rest => stollMag 16 rest
  | '0' :: 'X' :: rest => stollMag 16 rest
  | '0' :: _ => stollMag 8 cs
  | _ => stollMag 10 cs

/-- std::stoll(s, nullptr, base) for base 0, 2 or 16 as the code uses it:
skip leading spaces, optional sign, then the magnitude; none when no
conversion is possible (the C++ function throws std::invalid_argument). -/
def stoll (s : List Char) (base : Nat) : Option Int :=
  let cs := s.dropWhile (fun c => c = ' ' ∨ c = '\t')
  let mag : List Char → Option Nat :=
    fun t => if base = 0 then stollMagBase0 t else stollMag base t
  match cs with
  | '-' :: rest => (mag rest).map (fun n => -(n : Int))
  | '+' :: rest => (mag rest).map (fun n => (n : Int))
  | _ => (mag cs).map (fun n => (n : Int))

/-- The parseNumber lambda of main.cpp Pass 1: "0b"/"0B" prefix is parsed
as binary, "0x"/"0X" as hexadecimal, anything else with stoll base 0. -/
def parseNumber (valStr : String) : Option Int :=
  let cs := valStr.data
  match cs with
  | '0' :: 'b' :: rest => stoll rest 2
  | '0' :: 'B' :: rest => stoll rest 2
  | '0' :: 'x' :: rest => stoll rest 16
  | '0' :: 'X' :: rest => stoll rest 16
  | _ => stoll cs 0

/-! ### Encoder (InstructionEncoder.cpp) -/

/-- Encoder::parseRegister: register-name lookup in the register map. -/
def parseRegister (reg : String) : Except AsmError Nat :=
  match registerTable.lookup reg with
  | some n => .ok n
  | none => .error (.invalidRegister reg)

/-- Encoder::encodeImmediate.  maxVal = 2^(bits-1)-1, minVal = -2^(bits-1);
out-of-range values fail carrying the value, both bounds and the context.
In range, a negative value has 2^bits added (two's-complement wraparound),
the result is masked with 2^bits-1 and truncated by the uint16_t cast
(modelled as % 2^16). -/
def encodeImmediate (value : Int) (bits : Nat) (context : String) : Except AsmError Nat :=
  let maxVal : Int := 2 ^ (bits - 1) - 1
  let minVal : Int := -(2 ^ (bits - 1))
  if value > maxVal ∨ value < minVal then
    .error (.immediateOutOfRange value minVal maxVal context)
  else
    let v : Int := if value < 0 then value + 2 ^ bits else value
    .ok ((v.toNat &&& (2 ^ bits - 1)) % 2 ^ 16)

/-- Encoder::parseImmediateOrSymbol: resolution order is define (raw
text), then after stripping a leading '#' or '=': define, label, "0x"/"0b"
literal, plain stoll base 0 literal; a parse failure is wrapped with the
value text and context. -/
def parseImmediateOrSymbol (st : SymbolTable) (value : String) (context : String) :
    Except AsmError Int :=
  if st.hasDefine value then .ok (st.getDefineValue value)
  else
    let numStr :=
      match value.data with
      | '#' :: rest => rest
      | '=' :: rest => rest
      | cs => cs
    let numString : String := ⟨numStr⟩
    if st.hasDefine numString then .ok (st.getDefineValue numString)
    else if st.hasLabel numString then
      match st.labels.lookup numString with
      | some a => .ok a
      | none => .error (.parseFailed value context)
    else
      let r : Option Int :=
        match numStr with
        | '0' :: 'x' :: rest => stoll rest 16
        | '0' :: 'X' :: rest => stoll rest 16
        | '0' :: 'b' :: rest => stoll rest 2
        | '0' :: 'B' :: rest => stoll rest 2
        | cs => stoll cs 0
      match r with
      | some n => .ok n
      | none => .error (.parseFailed value context)

/-- High byte of a label/define value: (value >> 8) & 0xFF on int64_t
(arithmetic shift, i.e. floor division, then the low-byte mask). -/
def highByte (value : Int) : Nat := ((value.fdiv 256) % 256).toNat

/-- Low byte of a label/define value: value & 0xFF on int64_t. -/
def lowByte (value : Int) : Nat := (value % 256).toNat

/-- Encoder::encodeRegReg: opcodeReg | (rX << 9) | rY. -/
def encodeRegReg (df : InstructionDef) (rX rY : Nat) : Nat :=
  df.opcodeReg ||| (rX <<< 9) ||| rY

/-- Encoder::encodeRegImm: opcodeImm | (rX << 9) | encodeImmediate(...). -/
def encodeRegImm (df : InstructionDef) (rX : Nat) (imm : Int) : Except AsmError Nat :=
  match encodeImmediate imm df.immBits df.mnemonic with
  | .error e => .error e
  | .ok f => .ok (df.opcodeImm ||| (rX <<< 9) ||| f)

/-- Encoder::encodeRegImmOrReg: label-immediate (=symbol) expands to two
words (MVT high byte, then ADD low byte for mv / the opcodeImm applied to
the low byte for other mnemonics); a '#' immediate is range-pre-checked
then encoded with encodeRegImm; a register operand encodes as reg-reg. -/
def encodeRegImmOrReg (st : SymbolTable) (df : InstructionDef) (ins : Instr) (rX : Nat) :
    Except AsmError (List Nat) :=
  if ins.isLabelImmediate then
    let valueR : Except AsmError Int :=
      if st.hasLabel ins.operand2 then st.getLabelAddress ins.operand2
      else if st.hasDefine ins.operand2 then .ok (st.getDefineValue ins.operand2)
      else parseImmediateOrSymbol st ins.operand2 (df.mnemonic ++ " label immediate")
    match valueR with
    | .error e => .error e
    | .ok value =>
      let mvtD := instrDefNamed "mvt"
      if df.mnemonic = "mv" then
        let addD := instrDefNamed "add"
        .ok [mvtD.opcodeImm ||| (rX <<< 9) ||| highByte value,
             addD.opcodeImm ||| (rX <<< 9) ||| lowByte value]
      else
        .ok [mvtD.opcodeImm ||| (rX <<< 9) ||| highByte value,
             df.opcodeImm ||| (rX <<< 9) ||| lowByte value]
  else if ins.isImmediate then
    let valueR : Except AsmError Int :=
      if st.hasDefine ins.operand2 then .ok (st.getDefineValue ins.operand2)
      else parseImmediateOrSymbol st ins.operand2 df.mnemonic
    match valueR with
    | .error e => .error e
    | .ok value =>
      let maxVal : Int := 2 ^ (df.immBits - 1) - 1
      let minVal : Int := -(2 ^ (df.immBits - 1))
      if value > maxVal ∨ value < minVal then
        .error (.hashImmediateTooWide df.immBits value)
      else
        match encodeRegImm df rX value with
        | .error e => .error e
        | .ok w => .ok [w]
  else
    match parseRegister ins.operand2 with
    | .error e => .error e
    | .ok rY => .ok [encodeRegReg df rX rY]

/-- Encoder::encodeBranch: offset = target - (currentAddress + 1); fails
outside [-256, 255]; the word is opcodeReg | (extraData << 9) | the
encoded 9-bit offset field. -/
def encodeBranch (st : SymbolTable) (df : InstructionDef) (ins : Instr)
    (currentAddress : Int) : Except AsmError Nat :=
  match st.getLabelAddress ins.operand1 with
  | .error e => .error e
  | .ok targetAddr =>
    let offset : Int := targetAddr - (currentAddress + 1)
    if offset > 255 ∨ offset < -256 then
      .error (.branchTooFar offset)
    else
      match encodeImmediate offset df.immBits "branch offset" with
      | .error e => .error e
      | .ok f => .ok (df.opcodeReg ||| (df.extraData <<< 9) ||| f)

/-- Encoder::encodeRegOnly: opcodeReg | (rX << 9) | extraData (the
implicit second register, e.g. SP for push/pop). -/
def encodeRegOnly (df : InstructionDef) (rX : Nat) : Nat :=
  df.opcodeReg ||| (rX <<< 9) ||| df.extraData

/-- Encoder::encodeRegMem: opcodeReg | (rX << 9) | rY. -/
def encodeRegMem (df : InstructionDef) (rX rY : Nat) : Nat :=
  df.opcodeReg ||| (rX <<< 9) ||| rY

/-- Encoder::encodeShift: base word opcodeReg | (rX << 9) | (0b10 << 7) |
(shiftType << 5); an immediate amount must be in [0, 15] and sets bit 7
plus the low nibble; a register amount occupies the low 3 bits. -/
def encodeShift (st : SymbolTable) (df : InstructionDef) (ins : Instr) (rX : Nat) :
    Except AsmError Nat :=
  let shiftType := df.extraData
  let encoded := df.opcodeReg ||| (rX <<< 9) ||| (2 <<< 7) ||| (shiftType <<< 5)
  if ins.isImmediate then
    match parseImmediateOrSymbol st ins.operand2 "shift amount" with
    | .error e => .error e
    | .ok imm =>
      if imm > 15 ∨ imm < 0 then
        .error .shiftAmountOutOfRange
      else
        .ok (encoded ||| (1 <<< 7) ||| (imm.toNat &&& 0xF))
  else
    match parseRegister ins.operand2 with
    | .error e => .error e
    | .ok rY => .ok (encoded ||| rY)

/-- Encoder::encodeLabelLoad: the MVT-high-byte / ADD-low-byte pair. -/
def encodeLabelLoad (st : SymbolTable) (ins : Instr) (rX : Nat) :
    Except AsmError (List Nat) :=
  let valueR : Except AsmError Int :=
    if st.hasLabel ins.operand2 then st.getLabelAddress ins.operand2
    else if st.hasDefine ins.operand2 then .ok (st.getDefineValue ins.operand2)
    else parseImmediateOrSymbol st ins.operand2 "label load"
  match valueR with
  | .error e => .error e
  | .ok value =>
    let mvtD := instrDefNamed "mvt"
    let addD := instrDefNamed "add"
    .ok [mvtD.opcodeImm ||| (rX <<< 9) ||| highByte value,
         addD.opcodeImm ||| (rX <<< 9) ||| lowByte value]

/-- getFormatString of InstructionDef.h. -/
def getFormatString (f : InstrFormat) : String :=
  match f with
  | .REG_REG => "rX, rY"
  | .REG_IMM => "rX, #imm"
  | .REG_IMM_OR_REG => "rX, rY | rX, #imm | rX, =label"
  | .BRANCH => "label"
  | .REG_ONLY => "rX"
  | .REG_MEM => "rX, [rY]"
  | .SHIFT => "rX, rY | rX, #imm"
  | .LABEL_LOAD => "rX, =label"
  | .NO_OPERAND => "(none)"

/-- getFormatHint of InstructionDef.h. -/
def getFormatHint (df : InstructionDef) : String :=
  "Expected format: " ++ df.mnemonic ++ " " ++ getFormatString df.fmt

/-- Encoder::encodeInstruction: table lookup, operand-1 register parse
(except branches, with the format hint appended on failure), dispatch on
the format, and the whole result wrapped with the statement's line.
NO_OPERAND has no case in the C++ switch and falls into the default:
"Unhandled instruction format". Returns the words emitted. -/
def encodeInstruction (st : SymbolTable) (currentAddress : Int) (ins : Instr) :
    Except AsmError (List Nat) :=
  let core : Except AsmError (List Nat) := do
    match getInstructionDef ins.opcode with
    | none => .error (.unknownInstruction ins.opcode)
    | some df => do
      let rX ←
        if df.fmt ≠ .BRANCH then
          match parseRegister ins.operand1 with
          | .ok r => pure r
          | .error e => .error (.withHint e (getFormatHint df))
        else pure 0
      match df.fmt with
      | .REG_REG =>
        (do
          let rY ←
            match parseRegister ins.operand2 with
            | .ok r => pure r
            | .error e => .error (.withHint e (getFormatHint df))
          return [encodeRegReg df rX rY])
      | .REG_IMM => do
        let v ← parseImmediateOrSymbol st ins.operand2 df.mnemonic
        let w ← encodeRegImm df rX v
        return [w]
      | .REG_IMM_OR_REG => encodeRegImmOrReg st df ins rX
      | .BRANCH => do
        let w ← encodeBranch st df ins currentAddress
        return [w]
      | .REG_ONLY => return [encodeRegOnly df rX]
      | .REG_MEM =>
        (do
          let rY ←
            match parseRegister ins.operand2 with
            | .ok r => pure r
            | .error e => .error (.withHint e (getFormatHint df))
          return [encodeRegMem df rX rY])
      | .SHIFT => do
        let w ← encodeShift st df ins rX
        return [w]
      | .LABEL_LOAD => encodeLabelLoad st ins rX
      | .NO_OPERAND => .error (.unhandledFormat ins.opcode)
  match core with
  | .ok ws => .ok ws
  | .error e => .error (.errLine ins.line e)

/-- Encoder::encodeDirective: only ".word" emits a word in Pass 2 — its
value is parsed as number-or-symbol, range-checked to [-32768, 65535] and
truncated to 16 bits; every other directive emits nothing.  Errors are
wrapped with the directive's line. -/
def encodeDirective (st : SymbolTable) (name value : String) (line : Int) :
    Except AsmError (List Nat) :=
  let core : Except AsmError (List Nat) :=
    if name = ".word" then do
      let v ← parseImmediateOrSymbol st value ".word directive"
      if v > 0xFFFF ∨ v < -0x8000 then .error (.wordOutOfRange v)
      else return [(v.emod (2 ^ 16)).toNat]
    else .ok []
  match core with
  | .ok ws => .ok ws
  | .error e => .error (.errDirLine line e)

/-- One step of Encoder::encode (Pass 2): accumulates the machine-code
words and the current address (which advances by the number of words
emitted, exactly as the individual encoders increment currentAddress). -/
def pass2Step (st : SymbolTable) (acc : List Nat × Int) (stmt : Stmt) :
    Except AsmError (List Nat × Int) :=
  match stmt with
  | .label _ _ => .ok acc
  | .directive name _ value line => do
    let ws ← encodeDirective st name value line
    return (acc.1 ++ ws, acc.2 + ws.length)
  | .instruction ins => do
    let ws ← encodeInstruction st acc.2 ins
    return (acc.1 ++ ws, acc.2 + ws.length)

/-- Encoder::encode (Pass 2): machineCode cleared, currentAddress = 0,
then one pass over the statement sequence. -/
def pass2 (ast : List Stmt) (st : SymbolTable) : Except AsmError (List Nat) := do
  let r ← ast.foldlM (pass2Step st) ([], 0)
  return r.1

/-! ### Pass 1 (main.cpp): symbol collection and layout -/

/-- Pass-1 state: the running address counter, the byte-classification
vector (isData) and the symbol table being populated. -/
structure Pass1State where
  currentAddress : Int
  isData : List Bool
  st : SymbolTable
deriving DecidableEq

/-- One step of the Pass-1 loop in main():
labels are registered at the current address; ".define" registers a
define; ".org" fails when the target is below the current address and
otherwise records the gap as data; ".word" counts one data word;
any other directive (including ".space", ".ascii", ".asciiz") changes
nothing; an instruction counts 2 words when its operand is a
label-immediate on an expandable mnemonic, else 1, all marked code. -/
def pass1Step (s : Pass1State) (stmt : Stmt) : Except AsmError Pass1State :=
  match stmt with
  | .label name _ => .ok ⟨s.currentAddress, s.isData, s.st.addLabel name s.currentAddress⟩
  | .directive name lbl value line =>
    if name = ".define" then
      match parseNumber value with
      | some v => .ok ⟨s.currentAddress, s.isData, s.st.addDefine lbl v⟩
      | none => .error (.badNumber value)
    else if name = ".org" then
      match parseNumber value with
      | some targetAddr =>
        if targetAddr < s.currentAddress then
          .error (.orgRegression line targetAddr s.currentAddress)
        else
          .ok ⟨targetAddr,
               s.isData ++ List.replicate (targetAddr - s.currentAddress).toNat true,
               s.st⟩
      | none => .error (.badNumber value)
    else if name = ".word" then
      .ok ⟨s.currentAddress + 1, s.isData ++ [true], s.st⟩
    else
      .ok s
  | .instruction ins =>
    let numWords : Nat :=
      if ins.isLabelImmediate then
        match getInstructionDef ins.opcode with
        | some df => if df.canExpand then 2 else 1
        | none => 1
      else 1
    .ok ⟨s.currentAddress + numWords, s.isData ++ List.replicate numWords false, s.st⟩

/-- Pass 1 over the whole statement sequence, from address 0. -/
def pass1 (ast : List Stmt) : Except AsmError Pass1State :=
  ast.foldlM pass1Step ⟨0, [], .empty⟩

/-! ### The disassembler embedded in writeMIF (main.cpp) -/

/-- Structured disassembly result: one constructor per distinct output
text shape produced by the writeMIF switch, carrying exactly the values
interpolated into the text (register numbers, immediates, targets). -/
inductive Disasm where
  | mvImm (rX imm : Nat)
  | mvReg (rX rY : Nat)
  | mvt (rX imm8 : Nat)
  /-- "conditions[cond] 0x<target>" with target = i + 1 + sign-extended offset -/
  | branch (cond : Nat) (target : Int)
  | addImm (rX imm : Nat)
  | addReg (rX rY : Nat)
  | subImm (rX imm : Nat)
  | subReg (rX rY : Nat)
  | pop (rX : Nat)
  | ld (rX rY : Nat)
  | push (rX : Nat)
  | st (rX rY : Nat)
  | andImm (rX imm : Nat)
  | andReg (rX rY : Nat)
  | halt
  | shiftImm (shiftType rX amount : Nat)
  | shiftReg (shiftType rX rY : Nat)
  /-- "cmp rX, #-0x<mag>" where mag = -(imm9 | 0xFE00 as int16) -/
  | cmpImmNeg (rX mag : Nat)
  | cmpImm (rX imm : Nat)
  | cmpReg (rX rY : Nat)
deriving DecidableEq

/-- The bit fields extracted by the writeMIF disassembly switch
(opcode, imm, rX, rY, immediate) plus the fields computed inside its
opcode-7 case (shift flag, imm-shift flag, shift type, shift amount and
the bit-4 test of the HALT pattern). -/
structure DisFields where
  opcode : Nat
  imm : Nat
  rX : Nat
  rY : Nat
  imm9 : Nat
  shiftFlag : Nat
  immShift : Nat
  shiftType : Nat
  shiftAmount : Nat
  bit4 : Nat
deriving DecidableEq

/-- Field extraction of the writeMIF disassembler. -/
def disFields (instr : Nat) : DisFields :=
  ⟨(instr >>> 13) &&& 0x7,
   (instr >>> 12) &&& 0x1,
   (instr >>> 9) &&& 0x7,
   instr &&& 0x7,
   instr &&& 0x1FF,
   (instr >>> 8) &&& 0x1,
   (instr >>> 7) &&& 0x1,
   (instr >>> 5) &&& 0x3,
   instr &&& 0xF,
   instr &&& 0x10⟩

/-- The writeMIF disassembly switch on the extracted fields.  The branch
offset sign-extension (offset |= 0xFF00 on int16_t when bit 8 is set) is
imm9 - 512; the negative-cmp magnitude (-(imm9 | 0xFE00 as int16)) is
512 - imm9. -/
def disasmCases (f : DisFields) (address : Nat) : Disasm :=
  if f.opcode = 0 then
    (if f.imm = 1 then .mvImm f.rX f.imm9 else .mvReg f.rX f.rY)
  else if f.opcode = 1 then
    (if f.imm = 1 then .mvt f.rX (f.imm9 &&& 0xFF)
     else
       let offset : Int :=
         if f.imm9 &&& 0x100 ≠ 0 then (f.imm9 : Int) - 512 else (f.imm9 : Int)
       .branch f.rX ((address : Int) + 1 + offset))
  else if f.opcode = 2 then
    (if f.imm = 1 then .addImm f.rX f.imm9 else .addReg f.rX f.rY)
  else if f.opcode = 3 then
    (if f.imm = 1 then .subImm f.rX f.imm9 else .subReg f.rX f.rY)
  else if f.opcode = 4 then
    (if f.imm = 1 then .pop f.rX else .ld f.rX f.rY)
  else if f.opcode = 5 then
    (if f.imm = 1 then .push f.rX else .st f.rX f.rY)
  else if f.opcode = 6 then
    (if f.imm = 1 then .andImm f.rX f.imm9 else .andReg f.rX f.rY)
  else
    if f.shiftFlag = 1 then
      if f.immShift = 1 ∧ f.shiftType = 3 ∧ f.bit4 ≠ 0 then .halt
      else if f.immShift = 1 then .shiftImm f.shiftType f.rX f.shiftAmount
      else .shiftReg f.shiftType f.rX f.rY
    else if f.imm = 1 then
      (if f.imm9 &&& 0x100 ≠ 0 then .cmpImmNeg f.rX (512 - f.imm9)
       else .cmpImm f.rX f.imm9)
    else .cmpReg f.rX f.rY

/-- The full writeMIF disassembly of one word at its address. -/
def disasmWriter (instr : Nat) (address : Nat) : Disasm :=
  disasmCases (disFields instr) address

/-! ### Memory-image writer (writeMIF, main.cpp) -/

/-- Lowercase hexadecimal rendering of a Nat, as std::hex formats it. -/
def natToHex (n : Nat) : String := ⟨Nat.toDigits 16 n⟩

/-- The compressed filler range line:
"[" << hex << count << ".." << depth-1 << "]" << " : 0000;". -/
def fillerLine (count depth : Nat) : String :=
  "[" ++ natToHex count ++ ".." ++ natToHex (depth - 1) ++ "] : 0000;"

/-- Comment of a content line: "data" for words classified as data, else
the disassembly text. -/
inductive MifComment where
  | data
  | code (d : Disasm)
deriving DecidableEq

/-- One structured line of the MIF output. -/
inductive MifLine where
  | header (text : String)
  | content (addr value : Nat) (comment : MifComment)
  | filler (text : String)
  | endMarker
deriving DecidableEq

/-- The comment writeMIF attaches to word i: "data" when i is in range of
the classification vector and marked data, otherwise the disassembly. -/
def mifCommentAt (isData : List Bool) (i : Nat) (w : Nat) : MifComment :=
  if i < isData.length ∧ isData.getD i false then .data
  else .code (disasmWriter w i)

/-- writeMIF output as structured lines: the fixed header, one content
line per machine-code word (no depth check — every word is written even
past the declared depth), the filler range line exactly when
wordCount < depth, then "END;". -/
def writeMIFLines (machineCode : List Nat) (isData : List Bool) (depth : Nat) :
    List MifLine :=
  [MifLine.header "WIDTH = 16;",
   MifLine.header ("DEPTH = " ++ toString depth ++ ";"),
   MifLine.header "ADDRESS_RADIX = HEX;",
   MifLine.header "DATA_RADIX = HEX;",
   MifLine.header "CONTENT",
   MifLine.header "BEGIN"]
  ++ machineCode.enum.map (fun p => MifLine.content p.1 p.2 (mifCommentAt isData p.1 p.2))
  ++ (if machineCode.length < depth then [MifLine.filler (fillerLine machineCode.length depth)] else [])
  ++ [MifLine.endMarker]

/-- The output-file-name fix-up at the top of writeMIF: append ".mif"
when the name is shorter than 4 characters or its last 4 characters are
not ".mif".  Modelled on the character list of the name. -/
def mifExt : List Char := ['.', 'm', 'i', 'f']

def normalizeMifName (s : List Char) : List Char :=
  if s.length < 4 ∨ s.drop (s.length - 4) ≠ mifExt then s ++ mifExt else s

/-- The symbol table and statement of the C2 scenario: add r1, =count
with count a label at 0x0020. -/
def stC2 : SymbolTable := ⟨[("count", 0x20)], []⟩

def insC2 : Instr := ⟨"add", "r1", "count", true, true, false, 1⟩

/-- The two programs exhibiting the C1 length mismatch: an .org gap, and
a label-immediate on the non-expandable mnemonic cmp. -/
def progOrgGapInstr : List Stmt :=
  [.directive ".org" "" "1" 1, .instruction ⟨"mv", "r0", "r1", true, false, false, 2⟩]

def progCmpLabelImm : List Stmt :=
  [.label "L" 1, .instruction ⟨"cmp", "r1", "L", true, true, false, 2⟩]

/-- The programs of the C5 evaluation: a forward .org gap followed by a
.word, and an .org going backwards. -/
def progOrgForward : List Stmt :=
  [.directive ".org" "" "2" 1, .directive ".word" "" "5" 2]

def progOrgBackward : List Stmt :=
  [.directive ".word" "" "7" 1, .directive ".org" "" "0" 2]

/-- The program of the C6 evaluation: .space, .ascii and .asciiz. -/
def progDataDirectives : List Stmt :=
  [.directive ".space" "" "3" 1, .directive ".ascii" "" "ab" 2,
   .directive ".asciiz" "" "ab" 3]

/-- Recognizer for the filler range line among the writer's output. -/
def MifLine.isFiller : MifLine → Bool
  | .filler _ => true
  | _ => false

/-- Recognizer for per-word content lines among the writer's output. -/
def MifLine.isContent : MifLine → Bool
  | .content _ _ _ => true
  | _ => false

/-! ### Helper lemmas about encodeImmediate -/

/-- In range and with a field of at most 16 bits, encodeImmediate returns
exactly the two's-complement image of the value. -/
theorem encodeImmediate_in_range (v : Int) (bits : Nat) (ctx : String)
    (h1 : 1 ≤ bits) (h16 : bits ≤ 16)
    (hlo : -(2 ^ (bits - 1)) ≤ v) (hhi : v ≤ 2 ^ (bits - 1) - 1) :
    encodeImmediate v bits ctx = .ok (Int.toNat (if v < 0 then v + 2 ^ bits else v)) := by
  have hb : bits - 1 + 1 = bits := Nat.succ_pred_eq_of_pos h1
  have hpow : (2 : Int) ^ bits = 2 * 2 ^ (bits - 1) := by
    rw [mul_comm, ← pow_succ, hb]
  have hp : (0 : Int) < 2 ^ (bits - 1) := pow_pos (by norm_num) _
  have hcast : ((2 ^ bits : Nat) : Int) = (2 : Int) ^ bits := by push_cast; ring
  have hnb : (2 : Nat) ^ bits ≤ 2 ^ 16 := Nat.pow_le_pow_right (by norm_num) h16
  set v' : Int := if v < 0 then v + 2 ^ bits else v with hv'
  have hrange : 0 ≤ v' ∧ v' < 2 ^ bits := by
    rw [hv']; split <;> (rw [hpow]; constructor <;> omega)
  have htn : v'.toNat < 2 ^ bits := by omega
  have hguard : ¬(v > 2 ^ (bits - 1) - 1 ∨ v < -(2 ^ (bits - 1))) := by omega
  simp only [encodeImmediate, if_neg hguard, ← hv']
  congr 1
  rw [Nat.and_pow_two_sub_one_eq_mod, Nat.mod_eq_of_lt htn,
    Nat.mod_eq_of_lt (lt_of_lt_of_le htn hnb)]

/-- Out of range, encodeImmediate fails carrying the value, both computed
bounds and the context. -/
theorem encodeImmediate_out_of_range (v : Int) (bits : Nat) (ctx : String)
    (h : v > 2 ^ (bits - 1) - 1 ∨ v < -(2 ^ (bits - 1))) :
    encodeImmediate v bits ctx =
      .error (.immediateOutOfRange v (-(2 ^ (bits - 1))) (2 ^ (bits - 1) - 1) ctx) := by
  simp only [encodeImmediate, if_pos h]

/-- Every branch row of the instruction table has a 9-bit offset field
and register opcode 0x2000. -/
theorem branch_def_fields :
    ∀ df ∈ getInstructionTable, df.fmt = .BRANCH →
      df.immBits = 9 ∧ df.opcodeReg = 0x2000 := by decide

/-- encodeBranch computed out: with the target label registered at T, the
offset is T - (A + 1); out of [-256, 255] it fails, otherwise the word is
opcodeReg | (extraData << 9) | the 9-bit two's-complement offset field. -/
theorem encodeBranch_eq (st : SymbolTable) (df : InstructionDef) (ins : Instr)
    (A : Int) (T : Int) (hT : st.labels.lookup ins.operand1 = some T)
    (h9 : df.immBits = 9) :
    encodeBranch st df ins A =
      if T - (A + 1) > 255 ∨ T - (A + 1) < -256 then
        .error (.branchTooFar (T - (A + 1)))
      else
        .ok (df.opcodeReg ||| (df.extraData <<< 9) |||
          Int.toNat (if T - (A + 1) < 0 then T - (A + 1) + 512 else T - (A + 1))) := by
  rw [encodeBranch]
  simp only [SymbolTable.getLabelAddress, hT]
  set d : Int := T - (A + 1) with hd
  by_cases hout : d > 255 ∨ d < -256
  · rw [if_pos hout, if_pos hout]
  · rw [if_neg hout, if_neg hout, h9]
    have he := encodeImmediate_in_range d 9 "branch offset" (by norm_num) (by norm_num)
      (by push_neg at hout; norm_num; omega) (by push_neg at hout; norm_num; omega)
    norm_num at he
    rw [he]

/-! ### Claim theorems -/

/-- C4, counterexample: the claim quantifies over every bit width b ≥ 1,
but at b = 18 the value 65536 lies inside the claimed accepted range
[-(2^17), 2^17 - 1] and encodeImmediate accepts it, yet the uint16_t
return-type cast truncates the result to 0 instead of the claimed 65536. -/
theorem encodeImmediate_wide_field_truncates :
    encodeImmediate 65536 18 "t" = .ok 0 ∧ (0 : Nat) ≠ 65536 ∧
    -(2 ^ (18 - 1) : Int) ≤ 65536 ∧ (65536 : Int) ≤ 2 ^ (18 - 1) - 1 := by
  refine ⟨by decide, by decide, by norm_num, by norm_num⟩

/-- C4 (amended): for every bit width 1 ≤ b ≤ 16 and every 64-bit signed
value v, encodeImmediate(v, b) succeeds iff -(2^(b-1)) ≤ v ≤ 2^(b-1)-1; on
success a negative v is encoded as v + 2^b and a non-negative v as
itself, and on failure the error carries the value, both computed bounds
and the context. -/
theorem encodeImmediate_spec (v : Int) (bits : Nat) (ctx : String)
    (h1 : 1 ≤ bits) (h16 : bits ≤ 16) :
    (-(2 ^ (bits - 1)) ≤ v ∧ v ≤ 2 ^ (bits - 1) - 1 →
       encodeImmediate v bits ctx = .ok (Int.toNat (if v < 0 then v + 2 ^ bits else v))) ∧
    (v < -(2 ^ (bits - 1)) ∨ 2 ^ (bits - 1) - 1 < v →
       encodeImmediate v bits ctx =
         .error (.immediateOutOfRange v (-(2 ^ (bits - 1))) (2 ^ (bits - 1) - 1) ctx)) := by
  constructor
  · intro h
    exact encodeImmediate_in_range v bits ctx h1 h16 h.1 h.2
  · intro h
    exact encodeImmediate_out_of_range v bits ctx (by omega)

/-- C4 witness: encodeImmediate at (-3, 9) yields the wraparound 509 and
at (256, 9) fails naming the value and the bounds [-256, 255]. -/
theorem encodeImmediate_spec_witness :
    encodeImmediate (-3) 9 "mv" = .ok 509 ∧
    encodeImmediate 256 9 "mv" = .error (.immediateOutOfRange 256 (-256) 255 "mv") := by
  constructor
  · have h := (encodeImmediate_spec (-3) 9 "mv" (by norm_num) (by norm_num)).1
      (by norm_num)
    rw [h]; decide
  · have h := (encodeImmediate_spec 256 9 "mv" (by norm_num) (by norm_num)).2
      (by norm_num)
    rw [h]; norm_num

/-- C9: every accepted immediate is strictly below 2^bits, so ORing the
field into opcodeImm | (rX << 9) leaves every bit from position 9 up
unchanged whenever the field is 9 bits or narrower. -/
theorem encodeImmediate_no_clobber (v : Int) (bits : Nat) (ctx : String) (r : Nat)
    (hok : encodeImmediate v bits ctx = .ok r) :
    r < 2 ^ bits ∧
    (bits ≤ 9 → ∀ opc rX i : Nat, 9 ≤ i →
      Nat.testBit (opc ||| rX <<< 9 ||| r) i = Nat.testBit (opc ||| rX <<< 9) i) := by
  have hpos : 0 < (2 : Nat) ^ bits := Nat.pos_pow_of_pos _ (by norm_num)
  have hr : r ≤ 2 ^ bits - 1 := by
    simp only [encodeImmediate] at hok
    split at hok
    · exact absurd hok (by simp)
    · have hr' : (Int.toNat (if v < 0 then v + 2 ^ bits else v) &&&
          (2 ^ bits - 1)) % 2 ^ 16 = r := by
        simpa using hok
      calc r = _ % 2 ^ 16 := hr'.symm
        _ ≤ _ := Nat.mod_le _ _
        _ ≤ 2 ^ bits - 1 := Nat.and_le_right
  have hlt : r < 2 ^ bits := by omega
  refine ⟨hlt, fun h9 opc rX i hi => ?_⟩
  have hri : r < 2 ^ i := lt_of_lt_of_le hlt
    (Nat.pow_le_pow_right (by norm_num) (le_trans h9 hi))
  rw [Nat.testBit_lor, Nat.testBit_eq_false_of_lt hri, Bool.or_false]

/-- C9 witness: the 9-bit field 5 ORed into add's immediate opcode with
rX = 1 leaves bit 13 (an opcode bit) unchanged. -/
theorem encodeImmediate_no_clobber_witness :
    (5 : Nat) < 2 ^ 9 ∧
    Nat.testBit (0x5000 ||| 1 <<< 9 ||| 5) 13 = Nat.testBit (0x5000 ||| 1 <<< 9) 13 := by
  have h := encodeImmediate_no_clobber 5 9 "add" 5 (by decide)
  exact ⟨h.1, h.2 (by norm_num) 0x5000 1 13 (by norm_num)⟩

/-- C3: for every branch-format table row, with the target label
registered at T and the branch at current address A, the encoder computes
d = T - (A + 1), fails exactly when d is outside [-256, 255], and on
success emits opcodeReg | (conditionCode << 9) | (d as a 9-bit
two's-complement field), the condition code being the descriptor's
auxiliary byte. -/
theorem encodeBranch_spec (df : InstructionDef) (hdf : df ∈ getInstructionTable)
    (hfmt : df.fmt = .BRANCH) (st : SymbolTable) (ins : Instr) (A T : Int)
    (hT : st.labels.lookup ins.operand1 = some T) :
    encodeBranch st df ins A =
      if T - (A + 1) > 255 ∨ T - (A + 1) < -256 then
        .error (.branchTooFar (T - (A + 1)))
      else
        .ok (df.opcodeReg ||| (df.extraData <<< 9) |||
          Int.toNat (if T - (A + 1) < 0 then T - (A + 1) + 512 else T - (A + 1))) :=
  encodeBranch_eq st df ins A T hT (branch_def_fields df hdf hfmt).1

/-- C3 witness: beq at address 2 to a label at 10 (offset 7) encodes to
0x2207; offsets 255 and -256 encode, 256 and -257 fail. -/
theorem encodeBranch_spec_witness :
    encodeBranch ⟨[("t", 10)], []⟩ (instrDefNamed "beq") ⟨"beq", "t", "", false, false, false, 1⟩ 2 = .ok 0x2207 ∧
    encodeBranch ⟨[("t", 256)], []⟩ (instrDefNamed "b") ⟨"b", "t", "", false, false, false, 1⟩ 0 = .ok 0x20FF ∧
    encodeBranch ⟨[("t", 0)], []⟩ (instrDefNamed "b") ⟨"b", "t", "", false, false, false, 1⟩ 255 = .ok 0x2100 ∧
    encodeBranch ⟨[("t", 257)], []⟩ (instrDefNamed "b") ⟨"b", "t", "", false, false, false, 1⟩ 0 = .error (.branchTooFar 256) ∧
    encodeBranch ⟨[("t", 0)], []⟩ (instrDefNamed "b") ⟨"b", "t", "", false, false, false, 1⟩ 256 = .error (.branchTooFar (-257)) := by
  refine ⟨?_, ?_, ?_, ?_, ?_⟩
  · rw [encodeBranch_spec (instrDefNamed "beq") (by decide) (by decide)
      ⟨[("t", 10)], []⟩ ⟨"beq", "t", "", false, false, false, 1⟩ 2 10 rfl]
    decide
  · rw [encodeBranch_spec (instrDefNamed "b") (by decide) (by decide)
      ⟨[("t", 256)], []⟩ ⟨"b", "t", "", false, false, false, 1⟩ 0 256 rfl]
    decide
  · rw [encodeBranch_spec (instrDefNamed "b") (by decide) (by decide)
      ⟨[("t", 0)], []⟩ ⟨"b", "t", "", false, false, false, 1⟩ 255 0 rfl]
    decide
  · rw [encodeBranch_spec (instrDefNamed "b") (by decide) (by decide)
      ⟨[("t", 257)], []⟩ ⟨"b", "t", "", false, false, false, 1⟩ 0 257 rfl]
    decide
  · rw [encodeBranch_spec (instrDefNamed "b") (by decide) (by decide)
      ⟨[("t", 0)], []⟩ ⟨"b", "t", "", false, false, false, 1⟩ 256 0 rfl]
    decide

/-- C2, counterexample: add r1, =count with count at 0x0020 emits
[0x3200, 0x5220], not the claimed [0x3100, 0x5120] (the claim's own
formula 0x3000 | (1 << 9) | 0x00 equals 0x3200: its hex rendering used
1 << 8). -/
theorem addLabelImmediate_words_ne_claimed :
    encodeInstruction stC2 0 insC2 = .ok [0x3200, 0x5220] ∧
    ([0x3200, 0x5220] : List Nat) ≠ [0x3100, 0x5120] := by
  exact ⟨by decide, by decide⟩

/-- C2 (amended): add r1, =count with count at 0x0020 emits exactly two
words, first 0x3200 = mvt opcodeImm 0x3000 | (1 << 9) | 0x00, then
0x5220 = add opcodeImm 0x5000 | (1 << 9) | 0x20. -/
theorem addLabelImmediate_words :
    encodeInstruction stC2 0 insC2 = .ok [0x3200, 0x5220] ∧
    0x3200 = 0x3000 ||| (1 <<< 9) ||| 0x00 ∧
    0x5220 = 0x5000 ||| (1 <<< 9) ||| 0x20 := by
  exact ⟨by decide, by decide, by decide⟩

/-- C1 (code bug evaluation): Pass 1 classifies 2 word slots for an .org
gap program whose Pass 2 emits only 1 word, and 1 slot for cmp r1, =L
whose Pass 2 emits 2 words — the classification vector and the output
word array do not have the same length. -/
theorem pass_lengths_mismatch :
    pass1 progOrgGapInstr = .ok ⟨2, [true, false], .empty⟩ ∧
    pass2 progOrgGapInstr .empty = .ok [0x0001] ∧
    pass1 progCmpLabelImm = .ok ⟨1, [false], ⟨[("L", 0)], []⟩⟩ ∧
    pass2 progCmpLabelImm ⟨[("L", 0)], []⟩ = .ok [0x3200, 0xF200] ∧
    ([true, false] : List Bool).length ≠ ([0x0001] : List Nat).length ∧
    ([false] : List Bool).length ≠ ([0x3200, 0xF200] : List Nat).length := by
  refine ⟨by decide, by decide, by decide, by decide, by decide, by decide⟩

/-- C5 (code bug evaluation): .org 2 at address 0 succeeds in Pass 1,
marking the 2-word gap as data and advancing the counter, and .org to a
lower address fails naming both addresses — but Pass 2 emits no padding
words for the gap: the final word array is [5] alone, without the claimed
zero-valued gap words. -/
theorem org_gap_not_in_output :
    pass1 progOrgForward = .ok ⟨3, [true, true, true], .empty⟩ ∧
    pass2 progOrgForward .empty = .ok [5] ∧
    pass1 progOrgBackward = .error (.orgRegression 2 0 1) := by
  refine ⟨by decide, by decide, by decide⟩

/-- C6 (code bug evaluation): Pass 1 leaves the address counter at 0 and
the classification vector empty for .space 3, .ascii "ab" and
.asciiz "ab" (and Pass 2 emits nothing for them either), although the
directive table documents them as emitting words. -/
theorem space_ascii_asciiz_ignored :
    pass1 progDataDirectives = .ok ⟨0, [], .empty⟩ ∧
    pass2 progDataDirectives .empty = .ok [] ∧
    (".space", "Reserve N words of zero-initialized memory") ∈ getDirectiveTable := by
  refine ⟨by decide, by decide, by decide⟩

/-- C10: the writer appends ".mif" to the output name exactly when the
name does not already end in ".mif" (names shorter than 4 characters
included); a name already ending in ".mif" is used unchanged. -/
theorem normalizeMifName_spec (s : List Char) :
    ((∃ t, s = t ++ mifExt) → normalizeMifName s = s) ∧
    (¬(∃ t, s = t ++ mifExt) → normalizeMifName s = s ++ mifExt) := by
  constructor
  · rintro ⟨t, rfl⟩
    have hlen : (t ++ mifExt).length = t.length + 4 := by simp [mifExt]
    have hdrop : (t ++ mifExt).drop ((t ++ mifExt).length - 4) = mifExt := by
      rw [hlen, Nat.add_sub_cancel]
      exact List.drop_left t mifExt
    rw [normalizeMifName, if_neg]
    push_neg
    exact ⟨by omega, hdrop⟩
  · intro h
    rw [normalizeMifName, if_pos]
    by_contra hc
    push_neg at hc
    obtain ⟨hlen, hdrop⟩ := hc
    exact h ⟨s.take (s.length - 4), by rw [← hdrop, List.take_append_drop]⟩

/-- C10 witness: "a" (shorter than 4 characters) gains the suffix, and
"a.mif" is left unchanged. -/
theorem normalizeMifName_spec_witness :
    normalizeMifName ['a'] = ['a', '.', 'm', 'i', 'f'] ∧
    normalizeMifName ['a', '.', 'm', 'i', 'f'] = ['a', '.', 'm', 'i', 'f'] := by
  constructor
  · have h := (normalizeMifName_spec ['a']).2
      (by rintro ⟨t, ht⟩; have := congrArg List.length ht; simp [mifExt] at this)
    rw [h]; rfl
  · have h := (normalizeMifName_spec ['a', '.', 'm', 'i', 'f']).1 ⟨['a'], rfl⟩
    rw [h]

/-! ### Bit-level helper lemmas for the disassembler -/

theorem and_one_eq (n : Nat) : n &&& 1 = n % 2 :=
  Nat.and_pow_two_sub_one_eq_mod n 1

theorem and_three_eq (n : Nat) : n &&& 3 = n % 4 :=
  Nat.and_pow_two_sub_one_eq_mod n 2

theorem and_seven_eq (n : Nat) : n &&& 7 = n % 8 :=
  Nat.and_pow_two_sub_one_eq_mod n 3

theorem and_fifteen_eq (n : Nat) : n &&& 15 = n % 16 :=
  Nat.and_pow_two_sub_one_eq_mod n 4

theorem and_word255_eq (n : Nat) : n &&& 255 = n % 256 :=
  Nat.and_pow_two_sub_one_eq_mod n 8

theorem and_word511_eq (n : Nat) : n &&& 511 = n % 512 :=
  Nat.and_pow_two_sub_one_eq_mod n 9

theorem and_sixteen_eq (n : Nat) : n &&& 16 = 16 * (n / 16 % 2) := by
  have h := Nat.and_two_pow n 4
  rw [Nat.testBit_to_div_mod] at h
  norm_num at h
  rcases Nat.mod_two_eq_zero_or_one (n / 16) with h2 | h2 <;> simp [h2] at h ⊢ <;> omega

theorem and_bit8_eq (n : Nat) : n &&& 256 = 256 * (n / 256 % 2) := by
  have h := Nat.and_two_pow n 8
  rw [Nat.testBit_to_div_mod] at h
  norm_num at h
  rcases Nat.mod_two_eq_zero_or_one (n / 256) with h2 | h2 <;> simp [h2] at h ⊢ <;> omega

/-- An instruction word assembled from a 4096-multiple opcode, a register
field below 8 shifted to bit 9, and a low part below 512 is their sum. -/
theorem word_split (k x u : Nat) (hx : x < 8) (hu : u < 512) :
    4096 * k ||| x <<< 9 ||| u = 4096 * k + 512 * x + u := by
  rw [Nat.shiftLeft_eq]
  have hb : x * 2 ^ 9 < 2 ^ 12 := by norm_num; omega
  have h1 := Nat.mul_add_lt_is_or hb k
  norm_num at h1
  have hb2 : u < 2 ^ 9 := by norm_num; omega
  have h2 := Nat.mul_add_lt_is_or hb2 (8 * k + x)
  norm_num at h2
  have e1 : 4096 * k + x * 512 = 512 * (8 * k + x) := by ring
  calc 4096 * k ||| x * 2 ^ 9 ||| u
      = (4096 * k + x * 512) ||| u := by
        have hx512 : x * 2 ^ 9 = x * 512 := by norm_num
        rw [hx512, ← h1]
    _ = 512 * (8 * k + x) + u := by rw [e1, h2]
    _ = 4096 * k + 512 * x + u := by ring

/-- The field extraction of the writeMIF disassembler on such a word. -/
theorem disFields_arith (k x u : Nat) (hx : x < 8) (hu : u < 512) :
    disFields (4096 * k + 512 * x + u) =
      ⟨k / 2 % 8, k % 2, x, u % 8, u, u / 256 % 2, u / 128 % 2, u / 32 % 4,
       u % 16, 16 * (u / 16 % 2)⟩ := by
  rw [disFields, DisFields.mk.injEq]
  simp only [Nat.shiftRight_eq_div_pow, and_one_eq, and_three_eq, and_seven_eq,
    and_fifteen_eq, and_word511_eq, and_sixteen_eq]
  norm_num
  omega

theorem disasmWriter_eval (k x u a : Nat) (hx : x < 8) (hu : u < 512) :
    disasmWriter (4096 * k ||| x <<< 9 ||| u) a =
      disasmCases ⟨k / 2 % 8, k % 2, x, u % 8, u, u / 256 % 2, u / 128 % 2,
        u / 32 % 4, u % 16, 16 * (u / 16 % 2)⟩ a := by
  rw [disasmWriter, word_split k x u hx hu, disFields_arith k x u hx hu]

/-- Specialization to a low part below 8 (a register operand or the
fixed embedded register of push/pop). -/
theorem disasm_regform_fields (k x y a : Nat) (hx : x < 8) (hy : y < 8) :
    disasmWriter (4096 * k ||| x <<< 9 ||| y) a =
      disasmCases ⟨k / 2 % 8, k % 2, x, y, y, 0, 0, 0, y, 0⟩ a := by
  rw [disasmWriter_eval k x y a hx (by omega)]
  have hf : (⟨k / 2 % 8, k % 2, x, y % 8, y, y / 256 % 2, y / 128 % 2, y / 32 % 4,
      y % 16, 16 * (y / 16 % 2)⟩ : DisFields) =
      ⟨k / 2 % 8, k % 2, x, y, y, 0, 0, 0, y, 0⟩ := by
    rw [DisFields.mk.injEq]
    omega
  rw [hf]

/-- Specialization to a 9-bit immediate field whose bit 8 is clear. -/
theorem disasm_immform_fields (k x u a : Nat) (hx : x < 8) (hu : u < 256) :
    disasmWriter (4096 * k ||| x <<< 9 ||| u) a =
      disasmCases ⟨k / 2 % 8, k % 2, x, u % 8, u, 0, u / 128 % 2, u / 32 % 4,
        u % 16, 16 * (u / 16 % 2)⟩ a := by
  rw [disasmWriter_eval k x u a hx (by omega)]
  have hf : u / 256 % 2 = 0 := by omega
  rw [hf]

/-- Branch words decode to the condition field and the sign-extended
offset relative to the word after the branch. -/
theorem disasm_branch_decode (c o a : Nat) (hc : c < 8) (ho : o < 512) :
    disasmWriter (0x2000 ||| c <<< 9 ||| o) a =
      .branch c ((a : Int) + 1 + (if o < 256 then (o : Int) else (o : Int) - 512)) := by
  have h := disasmWriter_eval 2 c o a hc ho
  refine h.trans ?_
  show disasmCases _ a = _
  rcases lt_or_ge o 256 with h2 | h2
  · have hf : o / 256 % 2 = 0 := by omega
    simp only [disasmCases, hf]
    norm_num [and_bit8_eq, hf, h2]
  · have hf : o / 256 % 2 = 1 := by omega
    simp only [disasmCases, hf]
    norm_num [and_bit8_eq, hf]
    rw [if_neg (by omega)]

theorem shiftword_imm_eq (x ty amt : Nat) (hty : ty < 4) (hamt : amt < 16) :
    0xE000 ||| x <<< 9 ||| 2 <<< 7 ||| ty <<< 5 ||| 1 <<< 7 ||| (amt &&& 0xF) =
      4096 * 14 ||| x <<< 9 ||| (384 + 32 * ty + amt) := by
  simp only [Nat.or_assoc]
  congr 1
  congr 1
  have hinner : ∀ t, t < 4 → ∀ m, m < 16 →
      2 <<< 7 ||| (t <<< 5 ||| (1 <<< 7 ||| (m &&& 0xF))) = 384 + 32 * t + m := by decide
  exact hinner ty hty amt hamt

/-- Immediate-shift words decode to the same shift kind, register and
amount (the low-nibble amount never collides with the HALT pattern,
whose bit 4 is set). -/
theorem disasm_shiftword_imm (x ty amt a : Nat) (hx : x < 8) (hty : ty < 4)
    (hamt : amt < 16) :
    disasmWriter (0xE000 ||| x <<< 9 ||| 2 <<< 7 ||| ty <<< 5 ||| 1 <<< 7 ||| (amt &&& 0xF)) a =
      .shiftImm ty x amt := by
  rw [shiftword_imm_eq x ty amt hty hamt]
  have h := disasmWriter_eval 14 x (384 + 32 * ty + amt) a hx (by omega)
  refine h.trans ?_
  have hf : (⟨14 / 2 % 8, 14 % 2, x, (384 + 32 * ty + amt) % 8, 384 + 32 * ty + amt,
      (384 + 32 * ty + amt) / 256 % 2, (384 + 32 * ty + amt) / 128 % 2,
      (384 + 32 * ty + amt) / 32 % 4, (384 + 32 * ty + amt) % 16,
      16 * ((384 + 32 * ty + amt) / 16 % 2)⟩ : DisFields) =
      ⟨7, 0, x, (32 * ty + amt) % 8, 384 + 32 * ty + amt, 1, 1, ty, amt, 0⟩ := by
    rw [DisFields.mk.injEq]
    omega
  rw [hf]
  simp [disasmCases]

theorem shiftword_reg_eq (x ty y : Nat) (hty : ty < 4) (hy : y < 8) :
    0xE000 ||| x <<< 9 ||| 2 <<< 7 ||| ty <<< 5 ||| y =
      4096 * 14 ||| x <<< 9 ||| (256 + 32 * ty + y) := by
  simp only [Nat.or_assoc]
  congr 1
  congr 1
  have hinner : ∀ t, t < 4 → ∀ m, m < 8 →
      2 <<< 7 ||| (t <<< 5 ||| m) = 256 + 32 * t + m := by decide
  exact hinner ty hty y hy

/-- Register-shift words decode to the same shift kind and registers. -/
theorem disasm_shiftword_reg (x ty y a : Nat) (hx : x < 8) (hty : ty < 4) (hy : y < 8) :
    disasmWriter (0xE000 ||| x <<< 9 ||| 2 <<< 7 ||| ty <<< 5 ||| y) a =
      .shiftReg ty x y := by
  rw [shiftword_reg_eq x ty y hty hy]
  have h := disasmWriter_eval 14 x (256 + 32 * ty + y) a hx (by omega)
  refine h.trans ?_
  have hf : (⟨14 / 2 % 8, 14 % 2, x, (256 + 32 * ty + y) % 8, 256 + 32 * ty + y,
      (256 + 32 * ty + y) / 256 % 2, (256 + 32 * ty + y) / 128 % 2,
      (256 + 32 * ty + y) / 32 % 4, (256 + 32 * ty + y) % 16,
      16 * ((256 + 32 * ty + y) / 16 % 2)⟩ : DisFields) =
      ⟨7, 0, x, y, 256 + 32 * ty + y, 1, 0, ty, (32 * ty + y) % 16, 0⟩ := by
    rw [DisFields.mk.injEq]
    omega
  rw [hf]
  simp [disasmCases]

/-- A non-negative immediate below 2^(bits-1) passes the signed range
check and is encoded as itself. -/
theorem encodeImmediate_nat (u bits : Nat) (ctx : String) (h1 : 1 ≤ bits)
    (h16 : bits ≤ 16) (hu : u < 2 ^ (bits - 1)) :
    encodeImmediate (u : Int) bits ctx = .ok u := by
  have hp : (0 : Int) < 2 ^ (bits - 1) := pow_pos (by norm_num) _
  have hcast : ((2 ^ (bits - 1) : Nat) : Int) = (2 : Int) ^ (bits - 1) := by
    push_cast; ring
  have h := encodeImmediate_in_range (u : Int) bits ctx h1 h16 (by omega) (by omega)
  rw [h, if_neg (by omega)]
  norm_num

theorem disasm_mvImm (x u a : Nat) (hx : x < 8) (hu : u < 256) :
    disasmWriter (0x1000 ||| x <<< 9 ||| u) a = .mvImm x u :=
  (disasm_immform_fields 1 x u a hx hu).trans rfl

theorem disasm_addImm (x u a : Nat) (hx : x < 8) (hu : u < 256) :
    disasmWriter (0x5000 ||| x <<< 9 ||| u) a = .addImm x u :=
  (disasm_immform_fields 5 x u a hx hu).trans rfl

theorem disasm_subImm (x u a : Nat) (hx : x < 8) (hu : u < 256) :
    disasmWriter (0x7000 ||| x <<< 9 ||| u) a = .subImm x u :=
  (disasm_immform_fields 7 x u a hx hu).trans rfl

theorem disasm_andImm (x u a : Nat) (hx : x < 8) (hu : u < 256) :
    disasmWriter (0xD000 ||| x <<< 9 ||| u) a = .andImm x u :=
  (disasm_immform_fields 13 x u a hx hu).trans rfl

theorem disasm_mvtImm (x u a : Nat) (hx : x < 8) (hu : u < 256) :
    disasmWriter (0x3000 ||| x <<< 9 ||| u) a = .mvt x u := by
  refine (disasm_immform_fields 3 x u a hx hu).trans ?_
  show disasmCases _ a = _
  norm_num [disasmCases, and_word255_eq]
  omega

theorem disasm_cmpImm (x u a : Nat) (hx : x < 8) (hu : u < 256) :
    disasmWriter (0xF000 ||| x <<< 9 ||| u) a = .cmpImm x u := by
  refine (disasm_immform_fields 15 x u a hx hu).trans ?_
  show disasmCases _ a = _
  norm_num [disasmCases, and_bit8_eq]
  omega

/-- High byte of a small non-negative value. -/
theorem highByte_natCast (T : Nat) (h : T < 65536) : highByte (T : Int) = T / 256 := by
  rw [highByte, Int.fdiv_eq_ediv _ (by norm_num)]
  omega

/-- Low byte of a non-negative value. -/
theorem lowByte_natCast (T : Nat) : lowByte (T : Int) = T % 256 := by
  rw [lowByte]
  omega

/-- encodeShift with an in-range immediate amount produces a word the
writer decodes back to the same shift kind, register and amount. -/
theorem encodeShift_imm_disasm (st : SymbolTable) (ins : Instr) (df : InstructionDef)
    (rX amt a ty : Nat)
    (hdf1 : df.opcodeReg = 0xE000) (hdf2 : df.extraData = ty)
    (hty : ty < 4) (hrX : rX < 8) (hamt : amt < 16)
    (hImm : ins.isImmediate = true)
    (hParse : parseImmediateOrSymbol st ins.operand2 "shift amount" = .ok (amt : Int)) :
    ∀ w, encodeShift st df ins rX = .ok w → disasmWriter w a = .shiftImm ty rX amt := by
  intro w hw
  simp only [encodeShift, hdf1, hdf2, hImm, hParse, if_true] at hw
  rw [if_neg (show ¬((amt : Int) > 15 ∨ (amt : Int) < 0) by omega)] at hw
  simp only [Int.toNat_ofNat, Except.ok.injEq] at hw
  subst hw
  exact disasm_shiftword_imm rX ty amt a hrX hty hamt

/-- encodeShift with a register amount produces a word the writer
decodes back to the same shift kind and registers. -/
theorem encodeShift_reg_disasm (st : SymbolTable) (ins : Instr) (df : InstructionDef)
    (rX rY a ty : Nat)
    (hdf1 : df.opcodeReg = 0xE000) (hdf2 : df.extraData = ty)
    (hty : ty < 4) (hrX : rX < 8) (hrY : rY < 8)
    (hReg : ins.isImmediate = false)
    (hParse : parseRegister ins.operand2 = .ok rY) :
    ∀ w, encodeShift st df ins rX = .ok w → disasmWriter w a = .shiftReg ty rX rY := by
  intro w hw
  simp only [encodeShift, hdf1, hdf2, hReg, hParse, Bool.false_eq_true, if_false,
    Except.ok.injEq] at hw
  subst hw
  exact disasm_shiftword_reg rX ty rY a hrX hty hrY

/-- A branch word, decoded at the branch's own address, displays exactly
the target label's address. -/
theorem encodeBranch_disasm (st : SymbolTable) (ins : Instr) (df : InstructionDef)
    (A T cc : Nat)
    (hdf1 : df.immBits = 9) (hdf2 : df.opcodeReg = 0x2000) (hdf3 : df.extraData = cc)
    (hcc : cc < 8)
    (hT : st.labels.lookup ins.operand1 = some (T : Int))
    (hTlo : (A : Int) + 1 - 256 ≤ (T : Int)) (hThi : (T : Int) ≤ (A : Int) + 1 + 255) :
    ∀ w, encodeBranch st df ins (A : Int) = .ok w →
      disasmWriter w A = .branch cc (T : Int) := by
  intro w hw
  rw [encodeBranch_eq st df ins A T hT hdf1] at hw
  rw [if_neg (by omega)] at hw
  simp only [hdf2, hdf3, Except.ok.injEq] at hw
  subst hw
  rcases lt_or_ge ((T : Int) - ((A : Int) + 1)) 0 with hd | hd
  · rw [if_pos hd]
    have he : ((T : Int) - ((A : Int) + 1) + 512).toNat < 512 := by omega
    rw [disasm_branch_decode cc _ A hcc he]
    rw [if_neg (by omega)]
    congr 1
    omega
  · rw [if_neg (by omega)]
    have he : ((T : Int) - ((A : Int) + 1)).toNat < 512 := by omega
    rw [disasm_branch_decode cc _ A hcc he]
    rw [if_pos (by omega)]
    congr 1
    omega

/-- The two words mv rX, =label expands to decode as the mvt/add pair
carrying the label address's high and low bytes. -/
theorem encodeLabelImm_mv_disasm (st : SymbolTable) (ins : Instr) (name : String)
    (rX a T : Nat) (hrX : rX < 8)
    (hT : st.labels.lookup name = some (T : Int))
    (hLI : ins.isLabelImmediate = true) (hop2 : ins.operand2 = name) (hT16 : T < 65536) :
    ∀ w1 w2, encodeRegImmOrReg st (instrDefNamed "mv") ins rX = .ok [w1, w2] →
      disasmWriter w1 a = .mvt rX (T / 256) ∧ disasmWriter w2 a = .addImm rX (T % 256) := by
  intro w1 w2 hw
  have hmv : instrDefNamed "mv" =
    ⟨"mv", .REG_IMM_OR_REG, 0x0000, 0x1000, 9, 0, 1, true,
     "Move register or immediate to register"⟩ := by decide
  have hmvt : instrDefNamed "mvt" =
    ⟨"mvt", .REG_IMM, 0x3000, 0x3000, 8, 0, 1, false,
     "Move to top byte of register"⟩ := by decide
  have hadd : instrDefNamed "add" =
    ⟨"add", .REG_IMM_OR_REG, 0x4000, 0x5000, 9, 0, 1, true,
     "Add register or immediate"⟩ := by decide
  have hhl : st.hasLabel name = true := by
    rw [SymbolTable.hasLabel, hT]
    rfl
  have hgl : st.getLabelAddress name = .ok (T : Int) := by
    rw [SymbolTable.getLabelAddress, hT]
  rw [encodeRegImmOrReg] at hw
  simp only [hmv, hmvt, hadd, hLI, hop2, hhl, hgl, if_true] at hw
  simp only [highByte_natCast T hT16, lowByte_natCast T, Except.ok.injEq,
    List.cons.injEq, and_true] at hw
  obtain ⟨h1, h2⟩ := hw
  subst h1
  subst h2
  exact ⟨disasm_mvtImm rX (T / 256) a hrX (by omega),
         disasm_addImm rX (T % 256) a hrX (by omega)⟩

/-- C8, counterexample: with 2 words and declared depth 1 the writer does
not fail — it emits its complete normal output, a content line for every
word (address 1 is at and beyond the declared depth) and no filler. -/
theorem writeMIF_overflow_no_failure :
    writeMIFLines [0x1005, 0x4000] [false, false] 1 =
      [.header "WIDTH = 16;", .header "DEPTH = 1;", .header "ADDRESS_RADIX = HEX;",
       .header "DATA_RADIX = HEX;", .header "CONTENT", .header "BEGIN",
       .content 0 0x1005 (.code (.mvImm 0 5)),
       .content 1 0x4000 (.code (.addReg 0 0)),
       .endMarker] := by
  decide

/-- C8 (amended): the writer performs no overflow check — it always
emits one content line per word of the array; it emits exactly one
compressed filler line [hexCount..hexDepthMinus1] : 0000; when
wordCount < depth and none otherwise; for depth 256 and 10 words the
filler line reads "[a..ff] : 0000;". -/
theorem writeMIF_filler_spec (mc : List Nat) (isD : List Bool) (depth : Nat) :
    ((writeMIFLines mc isD depth).filter MifLine.isContent).length = mc.length ∧
    (mc.length < depth →
      (writeMIFLines mc isD depth).filter MifLine.isFiller =
        [.filler (fillerLine mc.length depth)]) ∧
    (depth ≤ mc.length →
      (writeMIFLines mc isD depth).filter MifLine.isFiller = []) ∧
    fillerLine 10 256 = "[a..ff] : 0000;" := by
  have hcontent : (mc.enum.map
      (fun p => MifLine.content p.1 p.2 (mifCommentAt isD p.1 p.2))).filter
        MifLine.isContent =
      mc.enum.map (fun p => MifLine.content p.1 p.2 (mifCommentAt isD p.1 p.2)) :=
    List.filter_eq_self.mpr (by
      intro a ha
      obtain ⟨p, _, rfl⟩ := List.mem_map.mp ha
      rfl)
  have hnofiller : (mc.enum.map
      (fun p => MifLine.content p.1 p.2 (mifCommentAt isD p.1 p.2))).filter
        MifLine.isFiller = [] :=
    List.filter_eq_nil_iff.mpr (by
      intro a ha
      obtain ⟨p, _, rfl⟩ := List.mem_map.mp ha
      simp [MifLine.isFiller])
  refine ⟨?_, fun h => ?_, fun h => ?_, by decide⟩
  · simp only [writeMIFLines, List.filter_append, hcontent]
    simp only [List.filter_cons, List.filter_nil, List.length_append]
    norm_num [MifLine.isContent]
  · simp only [writeMIFLines, List.filter_append, hnofiller]
    rw [if_pos h]
    simp [MifLine.isFiller, List.filter_cons]
  · simp only [writeMIFLines, List.filter_append, hnofiller]
    rw [if_neg (by omega)]
    simp [MifLine.isFiller, List.filter_cons]

/-- C8 witness: a 10-word program at depth 256 yields exactly the filler
line "[a..ff] : 0000;" (and ten content lines). -/
theorem writeMIF_filler_spec_witness :
    ((writeMIFLines [0, 0, 0, 0, 0, 0, 0, 0, 0, 0] [] 256).filter
      MifLine.isContent).length = 10 ∧
    (writeMIFLines [0, 0, 0, 0, 0, 0, 0, 0, 0, 0] [] 256).filter MifLine.isFiller =
      [.filler "[a..ff] : 0000;"] := by
  have h := writeMIF_filler_spec [0, 0, 0, 0, 0, 0, 0, 0, 0, 0] [] 256
  refine ⟨by rw [h.1]; rfl, ?_⟩
  have h2 := h.2.1 (by norm_num)
  rw [h2]
  decide

/-- C7, counterexample: cmp r0, #-1 encodes (via the two's-complement
9-bit field 0x1FF) to 0xF1FF, whose bit 8 makes the writer's disassembler
take the shift/halt path: the word disassembles as halt, not as a cmp
with immediate magnitude 1. -/
theorem cmp_negative_imm_misdecodes :
    encodeInstruction .empty 0 ⟨"cmp", "r0", "#-1", true, false, true, 1⟩ = .ok [0xF1FF] ∧
    disasmWriter 0xF1FF 0 = .halt ∧
    Disasm.halt ≠ .cmpImmNeg 0 1 := by
  refine ⟨by decide, by decide, by decide⟩

/-- C7 (amended): for every word the encoder produces for a single-word
instruction whose immediate (if any) is non-negative, the writer's
embedded disassembler reproduces the mnemonic and operands: register
forms of mv/add/sub/and/cmp, ld/st, push/pop; immediate forms of
mv/add/sub/and/cmp (by 0 ≤ imm ≤ 255) and mvt (0 ≤ imm ≤ 127); shifts
with immediate or register amount; branches, whose decoded target at the
branch's own address (address + 1 + sign-extended offset) is the original
label address for every in-range offset; and the mvt/add pair emitted for
mv rX, =label, which decodes as that pair with the label's high and low
bytes.  (Negative immediates are excluded: they display as the unsigned
field value, or, for cmp, misdecode as shift/halt.) -/
theorem encode_disasm_consistent
    (st : SymbolTable) (ins : Instr) (name : String) (a rX rY u u8 amt A T : Nat)
    (hrX : rX < 8) (hrY : rY < 8) (hu : u < 256) (hu8 : u8 < 128) (hamt : amt < 16)
    (hT : st.labels.lookup name = some (T : Int))
    (hTlo : (A : Int) + 1 - 256 ≤ (T : Int)) (hThi : (T : Int) ≤ (A : Int) + 1 + 255) :
    disasmWriter (encodeRegReg (instrDefNamed "mv") rX rY) a = .mvReg rX rY ∧
    disasmWriter (encodeRegReg (instrDefNamed "add") rX rY) a = .addReg rX rY ∧
    disasmWriter (encodeRegReg (instrDefNamed "sub") rX rY) a = .subReg rX rY ∧
    disasmWriter (encodeRegReg (instrDefNamed "and") rX rY) a = .andReg rX rY ∧
    disasmWriter (encodeRegReg (instrDefNamed "cmp") rX rY) a = .cmpReg rX rY ∧
    disasmWriter (encodeRegMem (instrDefNamed "ld") rX rY) a = .ld rX rY ∧
    disasmWriter (encodeRegMem (instrDefNamed "st") rX rY) a = .st rX rY ∧
    disasmWriter (encodeRegOnly (instrDefNamed "push") rX) a = .push rX ∧
    disasmWriter (encodeRegOnly (instrDefNamed "pop") rX) a = .pop rX ∧
    (∀ w, encodeRegImm (instrDefNamed "mv") rX (u : Int) = .ok w →
      disasmWriter w a = .mvImm rX u) ∧
    (∀ w, encodeRegImm (instrDefNamed "add") rX (u : Int) = .ok w →
      disasmWriter w a = .addImm rX u) ∧
    (∀ w, encodeRegImm (instrDefNamed "sub") rX (u : Int) = .ok w →
      disasmWriter w a = .subImm rX u) ∧
    (∀ w, encodeRegImm (instrDefNamed "and") rX (u : Int) = .ok w →
      disasmWriter w a = .andImm rX u) ∧
    (∀ w, encodeRegImm (instrDefNamed "cmp") rX (u : Int) = .ok w →
      disasmWriter w a = .cmpImm rX u) ∧
    (∀ w, encodeRegImm (instrDefNamed "mvt") rX (u8 : Int) = .ok w →
      disasmWriter w a = .mvt rX u8) ∧
    (∀ mn ty, (mn, ty) ∈ [("lsl", 0), ("lsr", 1), ("asr", 2), ("ror", 3)] →
      (ins.isImmediate = true →
        parseImmediateOrSymbol st ins.operand2 "shift amount" = .ok (amt : Int) →
        ∀ w, encodeShift st (instrDefNamed mn) ins rX = .ok w →
          disasmWriter w a = .shiftImm ty rX amt) ∧
      (ins.isImmediate = false →
        parseRegister ins.operand2 = .ok rY →
        ∀ w, encodeShift st (instrDefNamed mn) ins rX = .ok w →
          disasmWriter w a = .shiftReg ty rX rY)) ∧
    (∀ mn cc, (mn, cc) ∈ [("b", 0), ("beq", 1), ("bne", 2), ("bcc", 3), ("bcs", 4),
        ("bpl", 5), ("bmi", 6), ("bl", 7)] →
      ins.operand1 = name →
      ∀ w, encodeBranch st (instrDefNamed mn) ins (A : Int) = .ok w →
        disasmWriter w A = .branch cc (T : Int)) ∧
    (ins.isLabelImmediate = true → ins.operand2 = name → T < 65536 →
      ∀ w1 w2, encodeRegImmOrReg st (instrDefNamed "mv") ins rX = .ok [w1, w2] →
        disasmWriter w1 a = .mvt rX (T / 256) ∧ disasmWriter w2 a = .addImm rX (T % 256)) := by
  refine ⟨(disasm_regform_fields 0 rX rY a hrX hrY).trans rfl,
    (disasm_regform_fields 4 rX rY a hrX hrY).trans rfl,
    (disasm_regform_fields 6 rX rY a hrX hrY).trans rfl,
    (disasm_regform_fields 12 rX rY a hrX hrY).trans rfl,
    (disasm_regform_fields 14 rX rY a hrX hrY).trans rfl,
    (disasm_regform_fields 8 rX rY a hrX hrY).trans rfl,
    (disasm_regform_fields 10 rX rY a hrX hrY).trans rfl,
    (disasm_regform_fields 11 rX 5 a hrX (by norm_num)).trans rfl,
    (disasm_regform_fields 9 rX 5 a hrX (by norm_num)).trans rfl,
    ?mvi, ?addi, ?subi, ?andi, ?cmpi, ?mvti, ?shift, ?branch, ?lblimm⟩
  case mvi =>
    intro w hw
    have hdf : instrDefNamed "mv" =
      ⟨"mv", .REG_IMM_OR_REG, 0x0000, 0x1000, 9, 0, 1, true,
       "Move register or immediate to register"⟩ := by decide
    simp only [encodeRegImm, hdf] at hw
    rw [encodeImmediate_nat u 9 "mv" (by norm_num) (by norm_num) (by omega)] at hw
    simp only [Except.ok.injEq] at hw
    subst hw
    exact disasm_mvImm rX u a hrX hu
  case addi =>
    intro w hw
    have hdf : instrDefNamed "add" =
      ⟨"add", .REG_IMM_OR_REG, 0x4000, 0x5000, 9, 0, 1, true,
       "Add register or immediate"⟩ := by decide
    simp only [encodeRegImm, hdf] at hw
    rw [encodeImmediate_nat u 9 "add" (by norm_num) (by norm_num) (by omega)] at hw
    simp only [Except.ok.injEq] at hw
    subst hw
    exact disasm_addImm rX u a hrX hu
  case subi =>
    intro w hw
    have hdf : instrDefNamed "sub" =
      ⟨"sub", .REG_IMM_OR_REG, 0x6000, 0x7000, 9, 0, 1, true,
       "Subtract register or immediate"⟩ := by decide
    simp only [encodeRegImm, hdf] at hw
    rw [encodeImmediate_nat u 9 "sub" (by norm_num) (by norm_num) (by omega)] at hw
    simp only [Except.ok.injEq] at hw
    subst hw
    exact disasm_subImm rX u a hrX hu
  case andi =>
    intro w hw
    have hdf : instrDefNamed "and" =
      ⟨"and", .REG_IMM_OR_REG, 0xC000, 0xD000, 9, 0, 1, true,
       "Bitwise AND register or immediate"⟩ := by decide
    simp only [encodeRegImm, hdf] at hw
    rw [encodeImmediate_nat u 9 "and" (by norm_num) (by norm_num) (by omega)] at hw
    simp only [Except.ok.injEq] at hw
    subst hw
    exact disasm_andImm rX u a hrX hu
  case cmpi =>
    intro w hw
    have hdf : instrDefNamed "cmp" =
      ⟨"cmp", .REG_IMM_OR_REG, 0xE000, 0xF000, 9, 0, 1, false,
       "Compare register with register or immediate"⟩ := by decide
    simp only [encodeRegImm, hdf] at hw
    rw [encodeImmediate_nat u 9 "cmp" (by norm_num) (by norm_num) (by omega)] at hw
    simp only [Except.ok.injEq] at hw
    subst hw
    exact disasm_cmpImm rX u a hrX hu
  case mvti =>
    intro w hw
    have hdf : instrDefNamed "mvt" =
      ⟨"mvt", .REG_IMM, 0x3000, 0x3000, 8, 0, 1, false,
       "Move to top byte of register"⟩ := by decide
    simp only [encodeRegImm, hdf] at hw
    rw [encodeImmediate_nat u8 8 "mvt" (by norm_num) (by norm_num) (by omega)] at hw
    simp only [Except.ok.injEq] at hw
    subst hw
    exact disasm_mvtImm rX u8 a hrX (by omega)
  case shift =>
    intro mn ty hmem
    fin_cases hmem
    · exact ⟨fun hI hP => encodeShift_imm_disasm st ins (instrDefNamed "lsl") rX amt a 0
          (by decide) (by decide) (by norm_num) hrX hamt hI hP,
        fun hR hP => encodeShift_reg_disasm st ins (instrDefNamed "lsl") rX rY a 0
          (by decide) (by decide) (by norm_num) hrX hrY hR hP⟩
    · exact ⟨fun hI hP => encodeShift_imm_disasm st ins (instrDefNamed "lsr") rX amt a 1
          (by decide) (by decide) (by norm_num) hrX hamt hI hP,
        fun hR hP => encodeShift_reg_disasm st ins (instrDefNamed "lsr") rX rY a 1
          (by decide) (by decide) (by norm_num) hrX hrY hR hP⟩
    · exact ⟨fun hI hP => encodeShift_imm_disasm st ins (instrDefNamed "asr") rX amt a 2
          (by decide) (by decide) (by norm_num) hrX hamt hI hP,
        fun hR hP => encodeShift_reg_disasm st ins (instrDefNamed "asr") rX rY a 2
          (by decide) (by decide) (by norm_num) hrX hrY hR hP⟩
    · exact ⟨fun hI hP => encodeShift_imm_disasm st ins (instrDefNamed "ror") rX amt a 3
          (by decide) (by decide) (by norm_num) hrX hamt hI hP,
        fun hR hP => encodeShift_reg_disasm st ins (instrDefNamed "ror") rX rY a 3
          (by decide) (by decide) (by norm_num) hrX hrY hR hP⟩
  case branch =>
    intro mn cc hmem hop1
    fin_cases hmem
    · exact encodeBranch_disasm st ins (instrDefNamed "b") A T 0 (by decide) (by decide)
        (by decide) (by norm_num) (by rw [hop1]; exact hT) hTlo hThi
    · exact encodeBranch_disasm st ins (instrDefNamed "beq") A T 1 (by decide) (by decide)
        (by decide) (by norm_num) (by rw [hop1]; exact hT) hTlo hThi
    · exact encodeBranch_disasm st ins (instrDefNamed "bne") A T 2 (by decide) (by decide)
        (by decide) (by norm_num) (by rw [hop1]; exact hT) hTlo hThi
    · exact encodeBranch_disasm st ins (instrDefNamed "bcc") A T 3 (by decide) (by decide)
        (by decide) (by norm_num) (by rw [hop1]; exact hT) hTlo hThi
    · exact encodeBranch_disasm st ins (instrDefNamed "bcs") A T 4 (by decide) (by decide)
        (by decide) (by norm_num) (by rw [hop1]; exact hT) hTlo hThi
    · exact encodeBranch_disasm st ins (instrDefNamed "bpl") A T 5 (by decide) (by decide)
        (by decide) (by norm_num) (by rw [hop1]; exact hT) hTlo hThi
    · exact encodeBranch_disasm st ins (instrDefNamed "bmi") A T 6 (by decide) (by decide)
        (by decide) (by norm_num) (by rw [hop1]; exact hT) hTlo hThi
    · exact encodeBranch_disasm st ins (instrDefNamed "bl") A T 7 (by decide) (by decide)
        (by decide) (by norm_num) (by rw [hop1]; exact hT) hTlo hThi
  case lblimm =>
    intro hLI hop2 hT16
    exact encodeLabelImm_mv_disasm st ins name rX a T hrX hT hLI hop2 hT16

/-- C7 witness: add r1, r2 decodes back as add r1, r2; cmp r1, #5
(word 0xF205) decodes as cmp r1, #5; beq at address 1 to a label at 3
(word 0x2201) decodes with displayed target 3; lsl r1, #3 (word 0xE383)
decodes as lsl r1, #3. -/
theorem encode_disasm_consistent_witness :
    disasmWriter (encodeRegReg (instrDefNamed "add") 1 2) 0 = .addReg 1 2 ∧
    disasmWriter 0xF205 0 = .cmpImm 1 5 ∧
    disasmWriter 0x2201 1 = .branch 1 3 ∧
    disasmWriter 0xE383 0 = .shiftImm 0 1 3 := by
  have h := encode_disasm_consistent ⟨[("lbl", 3)], []⟩
    ⟨"x", "lbl", "3", true, false, true, 1⟩ "lbl" 0 1 2 5 7 3 1 3
    (by norm_num) (by norm_num) (by norm_num) (by norm_num) (by norm_num)
    (by decide) (by norm_num) (by norm_num)
  obtain ⟨-, hadd, -, -, -, -, -, -, -, -, -, -, -, hcmp, -, hshift, hbranch, -⟩ := h
  refine ⟨hadd, ?_, ?_, ?_⟩
  · exact hcmp 0xF205 (by decide)
  · exact hbranch "beq" 1 (by decide) rfl 0x2201 (by decide)
  · exact (hshift "lsl" 0 (by decide)).1 rfl (by decide) 0xE383 (by decide)

end QCore
